import Mathlib

set_option allowUnsafeReducibility true

attribute [local semireducible] Rat.mul Rat.inv Rat.add Rat.sub Rat.ofScientific

set_option allowUnsafeReducibility false

/-!
Verification of the closest-match repository (hOCR text matching and
PDF coordinate transformation).

Modelling conventions for the shallow embedding:
* Rust `f64` values are modelled as `ℚ`.  Every similarity value in the
  source is produced by integer-count divisions, so the rational model
  tracks the intended real-number semantics of the formulas.
* Rust strings are modelled as Lean `String`s, whose logical model is a
  list of characters.  Byte lengths and byte indices of the source agree
  with character counts on ASCII data, which is the domain of every
  scenario in the specification.
* Rust loops with `break` become structurally recursive functions over an
  explicit iteration count, so that all definitions evaluate by `decide`.
* The regular expressions of the source are deterministic on their
  patterns; they are implemented as direct character-list scanners with
  the leftmost-first, non-overlapping semantics of the regex crate.
-/

/-- Whitespace splitting as in Rust `split_whitespace`: maximal runs of
non-whitespace characters, empty tokens dropped. -/
def splitWSChars : List Char → List Char → List (List Char)
  | acc, [] => if acc = [] then [] else [acc.reverse]
  | acc, c :: rest =>
      if c.isWhitespace then
        if acc = [] then splitWSChars [] rest
        else acc.reverse :: splitWSChars [] rest
      else splitWSChars (c :: acc) rest

/-- `s.split_whitespace().collect()` from the source. -/
def splitWS (s : String) : List String := (splitWSChars [] s.data).map String.mk

/-- `MatchResult` from src/string_matching.rs (the debug-only fields,
which are copies of the inputs and never influence any result field,
are not modelled). -/
structure MatchResult where
  text : String
  similarity : ℚ
  start_index : ℕ
  end_index : ℕ
deriving DecidableEq, Repr

/-- `sequence_similarity` from src/string_matching.rs: positional
equality count over zipped tokens, divided by the longer length. -/
def sequence_similarity (seq1 seq2 : List String) : ℚ :=
  if seq1 = [] ∧ seq2 = [] then 1
  else ((seq1.zip seq2).countP (fun p => p.1 == p.2) : ℚ) /
    (max seq1.length seq2.length : ℚ)

/-- Contiguous-sublist test on character lists, the model of Rust
`str::contains` for a string pattern. -/
def subListCheck (pat : List Char) : List Char → Bool
  | [] => pat.isEmpty
  | c :: rest => pat.isPrefixOf (c :: rest) || subListCheck pat rest

/-- `hay.contains(pat)` from Rust. -/
def strContainsSub (hay pat : String) : Bool := subListCheck pat.data hay.data

/-- `calculate_word_similarity` from src/string_matching.rs. -/
def calculate_word_similarity (word1 word2 : String) : ℚ :=
  if word1 = word2 then 1
  else if strContainsSub word1 word2 || strContainsSub word2 word1 then 4/5
  else
    ((word1.data.filter (fun c => decide (c ∈ word2.data))).length : ℚ) /
      (max word1.data.length word2.data.length : ℚ)

/-- `fuzzy_sequence_similarity` from src/string_matching.rs. -/
def fuzzy_sequence_similarity (seq1 seq2 : List String) : ℚ :=
  if seq1 = [] ∧ seq2 = [] then 1
  else if seq1 = [] ∨ seq2 = [] then 0
  else (((seq1.zip seq2).map (fun p => calculate_word_similarity p.1 p.2)).sum) /
    (max seq1.length seq2.length : ℚ)

/-- `calculate_text_similarity` from src/string_matching.rs: positional
character equality up to the shorter length, divided by the longer. -/
def calculate_text_similarity (text1 text2 : String) : ℚ :=
  if text1 = text2 then 1
  else if max text1.data.length text2.data.length = 0 then 1
  else ((text1.data.zip text2.data).countP (fun p => p.1 == p.2) : ℚ) /
    (max text1.data.length text2.data.length : ℚ)

/-- The window `&cleaned_words[i..i + size]` of the source. -/
def windowAt (words : List String) (size i : ℕ) : List String :=
  (words.drop i).take size

/-- The combined score of one fuzzy window: the better of the two
similarities, truncated to three decimals exactly as the
`(x * 1000.0) as i32` cast of the source does. -/
def fuzzyScore (window search : List String) : ℚ :=
  ((max (Int.floor (fuzzy_sequence_similarity window search * 1000))
        (Int.floor (calculate_text_similarity (String.join window) (String.join search) * 1000)) : ℤ) : ℚ) / 1000

/-- Inner position loop of `find_fuzzy_match` (src/string_matching.rs),
iterating `i` over `0..=cleaned.len()-window_size` with the running best. -/
def fuzzyInner (cleaned search : List String) (ws : ℕ) :
    ℕ → ℕ → Option MatchResult × ℚ → Option MatchResult × ℚ
  | _, 0, acc => acc
  | i, c + 1, (best, bs) =>
      let window := windowAt cleaned ws i
      let sim := fuzzyScore window search
      if bs < sim ∧ 3/5 < sim then
        fuzzyInner cleaned search ws (i + 1) c
          (some ⟨String.intercalate " " window, sim, i, i + ws⟩, sim)
      else fuzzyInner cleaned search ws (i + 1) c (best, bs)

/-- Outer window-size loop of `find_fuzzy_match`. -/
def fuzzyOuter (cleaned search : List String) :
    ℕ → ℕ → Option MatchResult × ℚ → Option MatchResult × ℚ
  | _, 0, acc => acc
  | ws, c + 1, acc =>
      fuzzyOuter cleaned search (ws + 1) c
        (fuzzyInner cleaned search ws 0 (cleaned.length - ws + 1) acc)

/-- `find_fuzzy_match` from src/string_matching.rs. -/
def find_fuzzy_match (cleaned search : List String) : Option MatchResult :=
  let minw := max 1 (search.length - 2)
  let maxw := min cleaned.length (search.length + 3)
  (fuzzyOuter cleaned search minw (maxw + 1 - minw) (none, 0)).1

/-- Lazy search for the closing pattern of a marker: the distance to the
first occurrence of two closing brackets followed by a space, failing on
a newline first (the dot of the regex does not cross newlines). -/
def findCloser : List Char → Option ℕ
  | [] => none
  | ']' :: ']' :: ' ' :: _ => some 0
  | c :: rest => if c = '\n' then none else (findCloser rest).map (· + 1)

/-- One pass of `Regex::replace_all` for the marker-removal pattern of
`clean_embedded_text`: leftmost-first, non-overlapping.  The fuel is the
input length, which bounds the number of steps. -/
def cleanScanFuel : ℕ → List Char → List Char
  | 0, _ => []
  | _ + 1, [] => []
  | fuel + 1, '[' :: '[' :: rest =>
      (match findCloser rest with
       | some q => cleanScanFuel fuel (rest.drop (q + 3))
       | none => '[' :: cleanScanFuel fuel ('[' :: rest))
  | fuel + 1, c :: rest => c :: cleanScanFuel fuel rest

/-- `clean_embedded_text` from src/string_matching.rs. -/
def clean_embedded_text (text : String) : String :=
  String.mk (cleanScanFuel text.data.length text.data)

/-- Primary sliding-window loop of `find_closest_match`, with the
early exit at similarity at least 0.95. -/
def fcmLoop (cleaned search : List String) :
    ℕ → ℕ → Option MatchResult × ℚ → Option MatchResult × ℚ
  | _, 0, acc => acc
  | i, c + 1, (best, bs) =>
      let window := windowAt cleaned search.length i
      let sim := sequence_similarity window search
      if bs < sim then
        if 19/20 ≤ sim then
          (some ⟨String.intercalate " " window, sim, i, i + search.length⟩, sim)
        else fcmLoop cleaned search (i + 1) c
          (some ⟨String.intercalate " " window, sim, i, i + search.length⟩, sim)
      else fcmLoop cleaned search (i + 1) c (best, bs)

/-- The full primary scan of `find_closest_match`, returning the best
match and the best similarity. -/
def fcmPrimary (cleaned search : List String) : Option MatchResult × ℚ :=
  fcmLoop cleaned search 0 (cleaned.length - search.length + 1) (none, 0)

/-- `find_closest_match` from src/string_matching.rs. -/
def find_closest_match (embedded_text search_string : String) : Option MatchResult :=
  if embedded_text = "" ∨ search_string = "" then none
  else
    let cleaned_words := splitWS (clean_embedded_text embedded_text)
    let search_words := splitWS search_string
    if search_words = [] ∨ cleaned_words = [] then none
    else if cleaned_words.length < search_words.length then none
    else
      let p := fcmPrimary cleaned_words search_words
      if p.2 < 4/5 then
        match find_fuzzy_match cleaned_words search_words with
        | some f => if p.2 < f.similarity then some f else p.1
        | none => p.1
      else p.1

/-- `BoundingBox` from src/hocr_parser.rs. -/
structure BoundingBox where
  x1 : ℚ
  y1 : ℚ
  x2 : ℚ
  y2 : ℚ
deriving DecidableEq, Repr

/-- `calculate_string_similarity` from src/hocr_parser.rs. -/
def calculate_string_similarity (s1 s2 : String) : ℚ :=
  if max s1.data.length s2.data.length = 0 then 1
  else ((s1.data.zip s2.data).countP (fun p => p.1 == p.2) : ℚ) /
    (max s1.data.length s2.data.length : ℚ)

/-- The word filter of `extract_bounding_box`: a token is dropped only
when it both starts with two opening and ends with two closing brackets. -/
def isHocrMarkerWord (w : String) : Bool :=
  (List.isPrefixOf ['[', '['] w.data) && (List.isPrefixOf [']', ']'] w.data.reverse)

/-- Backward sliding-window loop of `extract_bounding_box`
(src/hocr_parser.rs lines 160-184): end positions are scanned from the
end of the corpus downward, with a break once the best similarity
exceeds 0.85. -/
def ebbLoop (text_words : List String) (query : String) (sl : ℕ) :
    ℕ → ℕ → ℚ × ℕ × ℕ → ℚ × ℕ × ℕ
  | _, 0, acc => acc
  | e, c + 1, (bs, bi, be) =>
      let window := windowAt text_words sl (e - sl)
      let cw := window.filter (fun w => !(isHocrMarkerWord w))
      if sl ≤ cw.length then
        let sim := calculate_string_similarity (String.intercalate " " cw) query
        if bs < sim then
          if 17/20 < sim then (sim, e - sl, e)
          else ebbLoop text_words query sl (e - 1) c (sim, e - sl, e)
        else ebbLoop text_words query sl (e - 1) c (bs, bi, be)
      else ebbLoop text_words query sl (e - 1) c (bs, bi, be)

/-- The backward scan of `extract_bounding_box`, returning the best
similarity with the selected start and end word indices. -/
def ebbScan (text_words : List String) (query : String) : ℚ × ℕ × ℕ :=
  let sl := (splitWS query).length
  ebbLoop text_words query sl text_words.length (text_words.length + 1 - sl) (0, 0, 0)

/-- Maximal run of decimal digits with its value, the model of one
digit-group capture of the marker regex. -/
def parseDigits (l : List Char) : Option (ℕ × List Char) :=
  let ds := l.takeWhile Char.isDigit
  if ds = [] then none
  else some (ds.foldl (fun n c => n * 10 + (c.toNat - 48)) 0, l.dropWhile Char.isDigit)

/-- Consume a literal character sequence. -/
def dropLit (pat l : List Char) : Option (List Char) :=
  if pat.isPrefixOf l then some (l.drop pat.length) else none

/-- Parse one LINE marker at the head of the list.  On these patterns
the greedy digit groups are deterministic: only the maximal digit run
can be followed by the space or bracket the pattern requires. -/
def parseMarker (l : List Char) : Option ((ℕ × ℕ × ℕ × ℕ) × List Char) :=
  (dropLit "[[LINE ".data l).bind fun r1 =>
  (parseDigits r1).bind fun p1 =>
  (dropLit [' '] p1.2).bind fun r2 =>
  (parseDigits r2).bind fun p2 =>
  (dropLit [' '] p2.2).bind fun r3 =>
  (parseDigits r3).bind fun p3 =>
  (dropLit [' '] p3.2).bind fun r4 =>
  (parseDigits r4).bind fun p4 =>
  (dropLit "]]".data p4.2).map fun r5 => ((p1.1, p2.1, p3.1, p4.1), r5)

/-- All LINE markers of a character list in order, as found by
`captures_iter` of the marker regex (leftmost, non-overlapping). -/
def scanMarkersFuel : ℕ → List Char → List (ℕ × ℕ × ℕ × ℕ)
  | 0, _ => []
  | fuel + 1, l =>
      match parseMarker l with
      | some (m, rest) => m :: scanMarkersFuel fuel rest
      | none =>
          match l with
          | [] => []
          | _ :: t => scanMarkersFuel fuel t

/-- LINE-marker scan with adequate fuel. -/
def scanMarkers (l : List Char) : List (ℕ × ℕ × ℕ × ℕ) := scanMarkersFuel l.length l

/-- The character start and end indices `extract_bounding_box` derives
from the selected word range by re-joining the words before it. -/
def ebbCharIndices (embedded_text query : String) : ℕ × ℕ :=
  let tw := splitWS embedded_text
  let s := ebbScan tw query
  let cs :=
    if 0 < s.2.1 then
      let L := (String.intercalate " " (tw.take s.2.1)).data.length
      if 0 < L then L + 1 else L
    else 0
  let ce :=
    if s.2.2 < tw.length then (String.intercalate " " (tw.take s.2.2)).data.length
    else embedded_text.data.length
  (cs, ce)

/-- The `before_match` slice of `extract_bounding_box`. -/
def ebbBefore (embedded_text query : String) : List Char :=
  embedded_text.data.take (ebbCharIndices embedded_text query).1

/-- The `match_section` slice of `extract_bounding_box`. -/
def ebbMatchSection (embedded_text query : String) : List Char :=
  ((embedded_text.data.drop (ebbCharIndices embedded_text query).1).take
    ((ebbCharIndices embedded_text query).2 - (ebbCharIndices embedded_text query).1))

/-- `extract_bounding_box` from src/hocr_parser.rs (the legacy path):
start corner from the last LINE marker before the match, right edge as a
running maximum seeded with that start x, bottom edge overwritten by each
marker inside the match, all-zero box mapped to an absent result. -/
def extract_bounding_box (embedded_text query : String) : Option BoundingBox :=
  if embedded_text = "" ∨ query = "" then none
  else if splitWS query = [] then none
  else
    let startM := (scanMarkers (ebbBefore embedded_text query)).getLast?
    let x1 : ℚ := match startM with | some m => (m.1 : ℚ) | none => 0
    let y1 : ℚ := match startM with | some m => (m.2.1 : ℚ) | none => 0
    let p := (scanMarkers (ebbMatchSection embedded_text query)).foldl
      (fun (acc : ℚ × ℚ) m =>
        (if acc.1 < (m.2.2.1 : ℚ) then (m.2.2.1 : ℚ) else acc.1, (m.2.2.2 : ℚ)))
      (x1, 0)
    if x1 = 0 ∧ y1 = 0 ∧ p.1 = 0 ∧ p.2 = 0 then none
    else some ⟨x1, y1, p.1, p.2⟩

/-- `CoordinateTransform` from src/pdf_annotator.rs. -/
structure CoordinateTransform where
  scale_x : ℚ
  scale_y : ℚ
  offset_x : ℚ
  offset_y : ℚ
  page_height : ℚ
deriving DecidableEq, Repr

/-- `PDFCoordinates` from src/pdf_annotator.rs. -/
structure PDFCoordinates where
  x : ℚ
  y : ℚ
  width : ℚ
  height : ℚ
deriving DecidableEq, Repr

/-- `transform_coordinates` from src/pdf_annotator.rs. -/
def transform_coordinates (x1 y1 x2 y2 : ℚ) (transform : CoordinateTransform) :
    PDFCoordinates :=
  ⟨x1 * transform.scale_x,
   transform.page_height - y2 * transform.scale_y,
   (x2 - x1) * transform.scale_x,
   (y2 - y1) * transform.scale_y⟩

/-- Rust `str::trim` on the character-list model. -/
def trimStr (s : String) : String :=
  String.mk (((s.data.dropWhile Char.isWhitespace).reverse.dropWhile Char.isWhitespace).reverse)

/-- One paragraph of hOCR markup as the regex pass of
`extract_embedded_text_from_hocr` sees it: the line bboxes captured
inside the paragraph, and the raw word texts captured inside it. -/
structure HocrParagraph where
  lines : List (ℕ × ℕ × ℕ × ℕ)
  words : List String

/-- The `[[LINE x1 y1 x2 y2]]` marker string built by
`extract_embedded_text_from_hocr`, with the captured numbers verbatim. -/
def lineMarker (b : ℕ × ℕ × ℕ × ℕ) : String :=
  "[[LINE " ++ toString b.1 ++ " " ++ toString b.2.1 ++ " " ++ toString b.2.2.1 ++
    " " ++ toString b.2.2.2 ++ "]]"

/-- The emission loop of `extract_embedded_text_from_hocr`
(src/hocr_parser.rs lines 52-91).  The regex extraction of paragraphs,
line bboxes and word texts is the markup tokenization the specification
scopes out as an implementation detail; this definition embeds what the
function does with the extracted stream: per paragraph one
`[[PARAGRAPH]]` token, then one marker per captured line, then every
trimmed non-empty word, all joined by single spaces. -/
def extract_embedded_text_core (ps : List HocrParagraph) : String :=
  String.intercalate " " ((ps.map (fun p =>
    "[[PARAGRAPH]]" :: (p.lines.map lineMarker ++
      (p.words.map trimStr).filter (fun w => w != "")))).flatten)

/-- Modelled from the spec: the character-set overlap ratio the
specification describes for non-identical, non-substring token pairs --
the count of characters in the shorter token's alphabet present in the
longer token's alphabet, divided by the longer token's length.  Used
only to compare the specified formula with the source's formula. -/
def specCharOverlap (w1 w2 : String) : ℚ :=
  let shorter := if w1.data.length ≤ w2.data.length then w1 else w2
  let longer := if w1.data.length ≤ w2.data.length then w2 else w1
  ((shorter.data.dedup.filter (fun c => decide (c ∈ longer.data.dedup))).length : ℚ) /
    (longer.data.length : ℚ)

/-! ## General lemmas about counting and summation forms -/

/-- Counting matching entries of a filter equals counting matching
indices over the index range. -/
theorem countP_eq_countP_range {α : Type} (d : α) (p : α → Bool) (l : List α) :
    l.countP p = (List.range l.length).countP (fun i => p (l.getD i d)) := by
  induction l with
  | nil => simp
  | cons a t ih =>
      simp only [List.length_cons, List.range_succ_eq_map, List.countP_cons,
        List.countP_map, Function.comp_def, List.getD_cons_zero, List.getD_cons_succ, ih]

/-- A zipped positional-equality count equals a count of equal optional
lookups over the common index range. -/
theorem countP_zip_eq_countP_range (s1 s2 : List String) :
    (s1.zip s2).countP (fun p => p.1 == p.2) =
      (List.range (min s1.length s2.length)).countP (fun i => s1[i]? == s2[i]?) := by
  induction s1 generalizing s2 with
  | nil => simp
  | cons a t1 ih =>
      cases s2 with
      | nil => simp
      | cons b t2 =>
          simp only [List.zip_cons_cons, List.countP_cons, List.length_cons,
            Nat.succ_min_succ, List.range_succ_eq_map, List.countP_map,
            Function.comp_def, List.getElem?_cons_zero, List.getElem?_cons_succ,
            Option.some_beq_some, ih]

/-- A zipped map-sum equals a sum over the common index range. -/
theorem zip_map_sum_eq (f : String → String → ℚ) :
    ∀ (s1 s2 : List String),
      ((s1.zip s2).map (fun p => f p.1 p.2)).sum =
        ∑ i ∈ Finset.range (min s1.length s2.length), f (s1.getD i "") (s2.getD i "")
  | [], s2 => by simp
  | a :: t1, [] => by simp
  | a :: t1, b :: t2 => by
      simp only [List.zip_cons_cons, List.map_cons, List.sum_cons, List.length_cons,
        Nat.succ_min_succ]
      rw [Finset.sum_range_succ']
      simp only [List.getD_cons_succ, List.getD_cons_zero]
      rw [zip_map_sum_eq f t1 t2]
      ring

/-! ## Claim theorems: coordinate transform and similarity formulas -/

/-- Claim C1: `transform_coordinates` maps a source box to exactly
`x = x1 * scaleX`, `y = pageHeight - y2 * scaleY` (flip on the bottom
edge `y2`), `width = (x2 - x1) * scaleX`, `height = (y2 - y1) * scaleY`;
the result is independent of `offsetX` and `offsetY`; and Scenario D
holds: box (100,200,300,400) at scale 0.5 and page height 800 maps to
(50, 600, 100, 100). -/
theorem claim_C1 :
    (∀ (x1 y1 x2 y2 : ℚ) (t : CoordinateTransform),
        transform_coordinates x1 y1 x2 y2 t =
          ⟨x1 * t.scale_x, t.page_height - y2 * t.scale_y,
           (x2 - x1) * t.scale_x, (y2 - y1) * t.scale_y⟩) ∧
    (∀ (x1 y1 x2 y2 sx sy ox oy ox2 oy2 ph : ℚ),
        transform_coordinates x1 y1 x2 y2 ⟨sx, sy, ox, oy, ph⟩ =
          transform_coordinates x1 y1 x2 y2 ⟨sx, sy, ox2, oy2, ph⟩) ∧
    transform_coordinates 100 200 300 400 ⟨1/2, 1/2, 0, 0, 800⟩ = ⟨50, 600, 100, 100⟩ :=
  ⟨fun _ _ _ _ _ => rfl, fun _ _ _ _ _ _ _ _ _ _ _ => rfl, by decide⟩

/-- Claim C4: `sequence_similarity` is the count of positions at which
the two sequences hold exactly equal strings, divided by the longer
length (stated for pairs that are not both empty, where the quotient is
meaningful); and Scenario B holds: a two-token window
["hello","universe"] against ["hello","world"] scores 0.5. -/
theorem claim_C4 :
    (∀ (seq1 seq2 : List String), 0 < max seq1.length seq2.length →
        sequence_similarity seq1 seq2 =
          ((List.range (min seq1.length seq2.length)).countP
              (fun i => seq1[i]? == seq2[i]?) : ℚ) /
            (max seq1.length seq2.length : ℚ)) ∧
    sequence_similarity ["hello", "universe"] ["hello", "world"] = 1/2 := by
  constructor
  · intro seq1 seq2 hmax
    have hne : ¬(seq1 = [] ∧ seq2 = []) := by
      rintro ⟨rfl, rfl⟩; simp at hmax
    rw [sequence_similarity, if_neg hne, countP_zip_eq_countP_range]
  · decide

/-- Claim C7: `find_closest_match` returns an absent result whenever the
query string is empty, the corpus text is empty or has no words after
marker cleaning, or the query has more whitespace tokens than the
cleaned corpus has words.  (The embedding is built from total functions,
so there is no error or panic path at all.) -/
theorem claim_C7 (embedded_text search_string : String)
    (h : search_string = "" ∨ embedded_text = "" ∨
      splitWS (clean_embedded_text embedded_text) = [] ∨
      (splitWS (clean_embedded_text embedded_text)).length <
        (splitWS search_string).length) :
    find_closest_match embedded_text search_string = none := by
  unfold find_closest_match
  by_cases he : embedded_text = "" ∨ search_string = ""
  · simp [he]
  · push_neg at he
    rcases h with h | h | h | h
    · exact absurd h he.2
    · exact absurd h he.1
    · simp [he.1, he.2, h]
    · by_cases hg : splitWS search_string = [] ∨ splitWS (clean_embedded_text embedded_text) = []
      · simp [he.1, he.2, hg]
      · push_neg at hg
        simp [he.1, he.2, hg.1, hg.2, h]

/-- Witness for C7: the empty corpus yields an absent result. -/
theorem claim_C7_witness : find_closest_match "" "x" = none :=
  claim_C7 "" "x" (Or.inr (Or.inl rfl))

/-- Witness for C4: the general formula applied to the Scenario B pair. -/
theorem claim_C4_witness :
    sequence_similarity ["hello", "universe"] ["hello", "world"] =
      ((List.range (min (["hello", "universe"] : List String).length
          (["hello", "world"] : List String).length)).countP
          (fun i => (["hello", "universe"] : List String)[i]? ==
            (["hello", "world"] : List String)[i]?) : ℚ) /
        (max (["hello", "universe"] : List String).length
          (["hello", "world"] : List String).length : ℚ) :=
  claim_C4.1 ["hello", "universe"] ["hello", "world"] (by decide)

/-- Counterexample for C5: for the non-identical, non-substring pair
("aaqb", "ab") the source scores 3/4 (it counts the first token's
characters, with multiplicity, that occur in the second token), while
the claimed shorter-alphabet-in-longer-alphabet formula gives 1/2. -/
theorem claim_C5_counterexample :
    ("aaqb" : String) ≠ "ab" ∧ strContainsSub "aaqb" "ab" = false ∧
    strContainsSub "ab" "aaqb" = false ∧
    calculate_word_similarity "aaqb" "ab" = 3/4 ∧
    specCharOverlap "aaqb" "ab" = 1/2 ∧
    calculate_word_similarity "aaqb" "ab" ≠ specCharOverlap "aaqb" "ab" := by
  refine ⟨by decide, by decide, by decide, by decide, by decide, by decide⟩

/-- Claim C5 (amended): in the fuzzy fallback an aligned pair scores 1.0
if identical and 0.8 if one token is a substring of the other; otherwise
the score is the count of the first (window-side) token's characters --
counted with multiplicity -- that occur in the second (query-side)
token, divided by the longer of the two lengths (not the count of the
shorter token's alphabet inside the longer token's alphabet).  The
per-pair scores are summed over the aligned positions and divided by
`max(window length, query length)`. -/
theorem claim_C5_amended :
    (∀ (word1 word2 : String), word1 ≠ word2 →
        strContainsSub word1 word2 = false → strContainsSub word2 word1 = false →
        calculate_word_similarity word1 word2 =
          ((List.range word1.data.length).countP
              (fun i => decide (word1.data.getD i ' ' ∈ word2.data)) : ℚ) /
            (max word1.data.length word2.data.length : ℚ)) ∧
    (∀ (seq1 seq2 : List String), seq1 ≠ [] → seq2 ≠ [] →
        fuzzy_sequence_similarity seq1 seq2 =
          (∑ i ∈ Finset.range (min seq1.length seq2.length),
              calculate_word_similarity (seq1.getD i "") (seq2.getD i "")) /
            (max seq1.length seq2.length : ℚ)) := by
  constructor
  · intro word1 word2 h1 h2 h3
    rw [calculate_word_similarity, if_neg h1, if_neg (by rw [h2, h3]; decide)]
    rw [← List.countP_eq_length_filter, countP_eq_countP_range ' ']
  · intro seq1 seq2 h1 h2
    rw [fuzzy_sequence_similarity, if_neg (by rintro ⟨rfl, _⟩; exact h1 rfl),
      if_neg (by rintro (rfl | rfl) <;> simp_all), zip_map_sum_eq]

/-- Witness for C5 (amended): both formulas applied to concrete pairs. -/
theorem claim_C5_witness :
    calculate_word_similarity "ab" "cd" =
      ((List.range ("ab" : String).data.length).countP
          (fun i => decide (("ab" : String).data.getD i ' ' ∈ ("cd" : String).data)) : ℚ) /
        (max ("ab" : String).data.length ("cd" : String).data.length : ℚ) ∧
    fuzzy_sequence_similarity ["ab"] ["cd"] =
      (∑ i ∈ Finset.range (min (["ab"] : List String).length (["cd"] : List String).length),
          calculate_word_similarity ((["ab"] : List String).getD i "")
            ((["cd"] : List String).getD i "")) /
        (max (["ab"] : List String).length (["cd"] : List String).length : ℚ) :=
  ⟨claim_C5_amended.1 "ab" "cd" (by decide) (by decide) (by decide),
   claim_C5_amended.2 ["ab"] ["cd"] (by decide) (by decide)⟩

/-- Claim C8: the flattened marked text emits, per paragraph, one
paragraph marker, then one line marker per line with its bbox numbers
verbatim, then the cleaned words, space-separated; each word therefore
appears after its enclosing line marker.  Scenario E: one paragraph with
one line (100,200,300,400) and words "Hello","World" yields the
paragraph marker, that line marker, then the two words, in order.
(The regex pass that captures paragraphs, line bboxes and word texts is
the markup tokenization the specification treats as an external
implementation detail; the theorem is about the emission order.) -/
theorem claim_C8 :
    (∀ (x1 y1 x2 y2 : ℕ) (ws : List String),
        (∀ w ∈ ws, trimStr w = w ∧ w ≠ "") →
        extract_embedded_text_core [⟨[(x1, y1, x2, y2)], ws⟩] =
          String.intercalate " " ("[[PARAGRAPH]]" ::
            ("[[LINE " ++ toString x1 ++ " " ++ toString y1 ++ " " ++ toString x2 ++
              " " ++ toString y2 ++ "]]") :: ws)) ∧
    extract_embedded_text_core [⟨[(100, 200, 300, 400)], ["Hello", "World"]⟩] =
      "[[PARAGRAPH]] [[LINE 100 200 300 400]] Hello World" := by
  constructor
  · intro x1 y1 x2 y2 ws h
    have hmap : ws.map trimStr = ws := by
      rw [List.map_congr_left (g := id) (fun a ha => (h a ha).1), List.map_id]
    have hfil : ws.filter (fun w => w != "") = ws :=
      List.filter_eq_self.mpr (fun a ha => by
        have := (h a ha).2; simpa [bne_iff_ne] using this)
    simp only [extract_embedded_text_core, List.map_cons, List.map_nil,
      List.flatten, List.append_nil, lineMarker, hmap, hfil]
    rfl
  · decide

/-- Witness for C8: the emission shape applied to the Scenario E data. -/
theorem claim_C8_witness :
    extract_embedded_text_core [⟨[(100, 200, 300, 400)], ["Hello", "World"]⟩] =
      String.intercalate " " ("[[PARAGRAPH]]" ::
        ("[[LINE " ++ toString 100 ++ " " ++ toString 200 ++ " " ++ toString 300 ++
          " " ++ toString 400 ++ "]]") :: ["Hello", "World"]) :=
  claim_C8.1 100 200 300 400 ["Hello", "World"] (by decide)

/-! ## Loop lemmas for the forward primary scan -/

/-- Equal lists zip to an all-equal count. -/
theorem countP_zip_self {α : Type} [BEq α] [LawfulBEq α] (m : List α) :
    (m.zip m).countP (fun p => p.1 == p.2) = m.length := by
  induction m with
  | nil => simp
  | cons a t ih => simp [List.countP_cons, ih]

/-- A non-empty sequence has positional similarity 1 with itself. -/
theorem sequence_similarity_self (l : List String) (h : l ≠ []) :
    sequence_similarity l l = 1 := by
  rw [sequence_similarity, if_neg (by rintro ⟨rfl, _⟩; exact h rfl), countP_zip_self,
    max_self]
  exact div_self (Nat.cast_ne_zero.mpr (fun h0 => h (List.length_eq_zero.mp h0)))

/-- While every scanned window scores below the 0.95 early-exit
threshold, the primary loop neither stops nor lets its best similarity
reach the threshold. -/
theorem fcmLoop_no_hit (cleaned search : List String) (c1 : ℕ) :
    ∀ (c2 i : ℕ) (best : Option MatchResult) (bs : ℚ),
      (∀ j, i ≤ j → j < i + c1 →
        sequence_similarity (windowAt cleaned search.length j) search < 19/20) →
      bs < 19/20 →
      ∃ best2 bs2,
        fcmLoop cleaned search i (c1 + c2) (best, bs) =
          fcmLoop cleaned search (i + c1) c2 (best2, bs2) ∧ bs2 < 19/20 := by
  induction c1 with
  | zero =>
      intro c2 i best bs _ hbs
      exact ⟨best, bs, by simp, hbs⟩
  | succ k ih =>
      intro c2 i best bs h hbs
      have hsim : sequence_similarity (windowAt cleaned search.length i) search < 19/20 :=
        h i le_rfl (by omega)
      rw [show k + 1 + c2 = (k + c2) + 1 by omega]
      simp only [fcmLoop]
      by_cases hc : bs < sequence_similarity (windowAt cleaned search.length i) search
      · rw [if_pos hc, if_neg (not_le.mpr hsim)]
        obtain ⟨b2, s2, heq, hlt⟩ := ih c2 (i + 1) _ _
          (fun j hj1 hj2 => h j (by omega) (by omega)) hsim
        exact ⟨b2, s2, by rw [heq, show i + 1 + k = i + (k + 1) by omega], hlt⟩
      · rw [if_neg hc]
        obtain ⟨b2, s2, heq, hlt⟩ := ih c2 (i + 1) best bs
          (fun j hj1 hj2 => h j (by omega) (by omega)) hbs
        exact ⟨b2, s2, by rw [heq, show i + 1 + k = i + (k + 1) by omega], hlt⟩

/-- When the loop reaches an exact occurrence with a running best below
1, it records it and stops through the early exit. -/
theorem fcmLoop_hit (cleaned search : List String) (i c : ℕ)
    (best : Option MatchResult) (bs : ℚ)
    (hne : search ≠ []) (hwin : windowAt cleaned search.length i = search)
    (hbs : bs < 1) :
    fcmLoop cleaned search i (c + 1) (best, bs) =
      (some ⟨String.intercalate " " search, 1, i, i + search.length⟩, 1) := by
  simp only [fcmLoop, hwin, sequence_similarity_self search hne]
  rw [if_pos hbs, if_pos (by norm_num)]

/-- The primary scan returns the first occurrence with similarity 1 when
every earlier window scores below the early-exit threshold. -/
theorem fcmPrimary_first (cleaned search : List String) (i0 : ℕ)
    (hne : search ≠ [])
    (hocc : windowAt cleaned search.length i0 = search)
    (hpre : ∀ j, j < i0 →
      sequence_similarity (windowAt cleaned search.length j) search < 19/20) :
    fcmPrimary cleaned search =
      (some ⟨String.intercalate " " search, 1, i0, i0 + search.length⟩, 1) := by
  have hlen : search.length ≤ cleaned.length - i0 := by
    have h1 : min search.length (cleaned.length - i0) = search.length := by
      have := congrArg List.length hocc
      simpa [windowAt] using this
    exact min_eq_left_iff.mp h1
  have hw1 : 1 ≤ search.length := List.length_pos.mpr hne
  have hi0 : i0 + search.length ≤ cleaned.length := by omega
  rw [fcmPrimary,
    show cleaned.length - search.length + 1 =
      i0 + (cleaned.length - search.length - i0 + 1) by omega]
  obtain ⟨b2, s2, heq, hlt⟩ := fcmLoop_no_hit cleaned search i0
    (cleaned.length - search.length - i0 + 1) 0 none 0
    (fun j _ hj2 => hpre j (by omega)) (by norm_num)
  rw [heq, show (0 : ℕ) + i0 = i0 by omega]
  exact fcmLoop_hit cleaned search i0 _ b2 s2 hne hocc
    (hlt.trans (by norm_num))

/-- Unfolding of `find_closest_match` past its guards. -/
theorem find_closest_match_unfold (embedded_text search_string : String)
    (h1 : ¬(embedded_text = "" ∨ search_string = ""))
    (h2 : ¬(splitWS search_string = [] ∨ splitWS (clean_embedded_text embedded_text) = []))
    (h3 : ¬((splitWS (clean_embedded_text embedded_text)).length <
      (splitWS search_string).length)) :
    find_closest_match embedded_text search_string =
      (let p := fcmPrimary (splitWS (clean_embedded_text embedded_text))
        (splitWS search_string)
       if p.2 < 4/5 then
         match find_fuzzy_match (splitWS (clean_embedded_text embedded_text))
             (splitWS search_string) with
         | some f => if p.2 < f.similarity then some f else p.1
         | none => p.1
       else p.1) := by
  rw [find_closest_match, if_neg h1]
  simp only []
  rw [if_neg h2, if_neg h3]

/-- The forward entry point returns the given occurrence (with
similarity 1) when every window strictly before it scores below the
0.95 early-exit threshold. -/
theorem find_closest_match_first_occurrence (embedded_text search_string : String)
    (i0 : ℕ)
    (h1 : embedded_text ≠ "") (h2 : search_string ≠ "")
    (h3 : splitWS search_string ≠ [])
    (hocc : windowAt (splitWS (clean_embedded_text embedded_text))
        (splitWS search_string).length i0 = splitWS search_string)
    (hpre : ∀ j, j < i0 →
      sequence_similarity
        (windowAt (splitWS (clean_embedded_text embedded_text))
          (splitWS search_string).length j) (splitWS search_string) < 19/20) :
    find_closest_match embedded_text search_string =
      some ⟨String.intercalate " " (splitWS search_string), 1, i0,
        i0 + (splitWS search_string).length⟩ := by
  have hcw : splitWS (clean_embedded_text embedded_text) ≠ [] := by
    intro h0
    apply h3
    rw [← hocc, h0]
    simp [windowAt]
  have hlen : min (splitWS search_string).length
      ((splitWS (clean_embedded_text embedded_text)).length - i0) =
      (splitWS search_string).length := by
    have := congrArg List.length hocc
    simpa [windowAt] using this
  have hw1 : 1 ≤ (splitWS search_string).length :=
    List.length_pos.mpr h3
  have hle : ¬((splitWS (clean_embedded_text embedded_text)).length <
      (splitWS search_string).length) := by
    have := min_eq_left_iff.mp hlen
    omega
  rw [find_closest_match_unfold embedded_text search_string
    (by rintro (h | h) <;> [exact h1 h; exact h2 h])
    (by rintro (h | h) <;> [exact h3 h; exact hcw h]) hle]
  rw [fcmPrimary_first _ _ i0 h3 hocc hpre]
  norm_num

/-! ## Loop lemmas for the backward legacy scan -/

/-- A string has character similarity 1 with itself. -/
theorem calculate_string_similarity_self (s : String) :
    calculate_string_similarity s s = 1 := by
  by_cases h : max s.data.length s.data.length = 0
  · rw [calculate_string_similarity, if_pos h]
  · rw [calculate_string_similarity, if_neg h, countP_zip_self, max_self]
    exact div_self (Nat.cast_ne_zero.mpr (by simpa using h))

/-- While every scanned end position is either skipped (a marker inside
the window) or scores at most 0.85, the backward loop neither stops nor
lets its best similarity exceed 0.85. -/
theorem ebbLoop_no_hit (text_words : List String) (query : String) (sl : ℕ) (c1 : ℕ) :
    ∀ (c2 e : ℕ) (bs : ℚ) (bi be : ℕ),
      (∀ x, e + 1 - c1 ≤ x → x ≤ e →
        sl ≤ ((windowAt text_words sl (x - sl)).filter
          (fun w => !(isHocrMarkerWord w))).length →
        calculate_string_similarity
          (String.intercalate " " ((windowAt text_words sl (x - sl)).filter
            (fun w => !(isHocrMarkerWord w)))) query ≤ 17/20) →
      bs ≤ 17/20 →
      ∃ bs2 bi2 be2,
        ebbLoop text_words query sl e (c1 + c2) (bs, bi, be) =
          ebbLoop text_words query sl (e - c1) c2 (bs2, bi2, be2) ∧ bs2 ≤ 17/20 := by
  induction c1 with
  | zero =>
      intro c2 e bs bi be _ hbs
      exact ⟨bs, bi, be, by simp, hbs⟩
  | succ k ih =>
      intro c2 e bs bi be h hbs
      rw [show k + 1 + c2 = (k + c2) + 1 by omega]
      simp only [ebbLoop]
      by_cases hlen : sl ≤ ((windowAt text_words sl (e - sl)).filter
          (fun w => !(isHocrMarkerWord w))).length
      · rw [if_pos hlen]
        have hsim := h e (by omega) le_rfl hlen
        by_cases hgt : bs < calculate_string_similarity
            (String.intercalate " " ((windowAt text_words sl (e - sl)).filter
              (fun w => !(isHocrMarkerWord w)))) query
        · rw [if_pos hgt, if_neg (not_lt.mpr hsim)]
          obtain ⟨bs2, bi2, be2, heq, h2⟩ := ih c2 (e - 1) _ _ _
            (fun x hx1 hx2 => h x (by omega) (by omega)) hsim
          exact ⟨bs2, bi2, be2, by rw [heq, show e - 1 - k = e - (k + 1) by omega], h2⟩
        · rw [if_neg hgt]
          obtain ⟨bs2, bi2, be2, heq, h2⟩ := ih c2 (e - 1) bs bi be
            (fun x hx1 hx2 => h x (by omega) (by omega)) hbs
          exact ⟨bs2, bi2, be2, by rw [heq, show e - 1 - k = e - (k + 1) by omega], h2⟩
      · rw [if_neg hlen]
        obtain ⟨bs2, bi2, be2, heq, h2⟩ := ih c2 (e - 1) bs bi be
          (fun x hx1 hx2 => h x (by omega) (by omega)) hbs
        exact ⟨bs2, bi2, be2, by rw [heq, show e - 1 - k = e - (k + 1) by omega], h2⟩

/-- When the backward loop reaches a marker-free occurrence whose join
equals the query, it records it and stops through the 0.85 break. -/
theorem ebbLoop_hit (text_words : List String) (query : String) (sl : ℕ)
    (e c : ℕ) (bs : ℚ) (bi be : ℕ) (qw : List String)
    (hwin : windowAt text_words sl (e - sl) = qw)
    (hnomark : ∀ w ∈ qw, isHocrMarkerWord w = false)
    (hq : String.intercalate " " qw = query)
    (hlen : qw.length = sl)
    (hbs : bs < 1) :
    ebbLoop text_words query sl e (c + 1) (bs, bi, be) = (1, e - sl, e) := by
  have hfil : qw.filter (fun w => !(isHocrMarkerWord w)) = qw :=
    List.filter_eq_self.mpr (fun a ha => by simp [hnomark a ha])
  simp only [ebbLoop, hwin, hfil, hq, calculate_string_similarity_self]
  rw [if_pos (by omega), if_pos hbs, if_pos (by norm_num)]

/-- The backward scan selects the given occurrence when every marker-free
window at a later end position scores at most 0.85. -/
theorem ebbScan_last_occurrence (text_words : List String) (query : String) (iL : ℕ)
    (h3 : splitWS query ≠ [])
    (hq : String.intercalate " " (splitWS query) = query)
    (hnomark : ∀ w ∈ splitWS query, isHocrMarkerWord w = false)
    (hocc : windowAt text_words (splitWS query).length iL = splitWS query)
    (hafter : ∀ x, iL + (splitWS query).length < x → x ≤ text_words.length →
      (splitWS query).length ≤
        ((windowAt text_words (splitWS query).length (x - (splitWS query).length)).filter
          (fun w => !(isHocrMarkerWord w))).length →
      calculate_string_similarity
        (String.intercalate " "
          ((windowAt text_words (splitWS query).length (x - (splitWS query).length)).filter
            (fun w => !(isHocrMarkerWord w)))) query ≤ 17/20) :
    ebbScan text_words query = (1, iL, iL + (splitWS query).length) := by
  have hlen : min (splitWS query).length (text_words.length - iL) =
      (splitWS query).length := by
    have := congrArg List.length hocc
    simpa [windowAt] using this
  have hw1 : 1 ≤ (splitWS query).length := List.length_pos.mpr h3
  have hiL : iL + (splitWS query).length ≤ text_words.length := by
    have := min_eq_left_iff.mp hlen
    omega
  rw [ebbScan]
  rw [show text_words.length + 1 - (splitWS query).length =
      (text_words.length - (iL + (splitWS query).length)) + (iL + 1) by omega]
  obtain ⟨bs2, bi2, be2, heq, h2⟩ := ebbLoop_no_hit text_words query
    (splitWS query).length (text_words.length - (iL + (splitWS query).length))
    (iL + 1) text_words.length 0 0 0
    (fun x hx1 hx2 hx3 => hafter x (by omega) (by omega) hx3) (by norm_num)
  rw [heq, show text_words.length - (text_words.length - (iL + (splitWS query).length)) =
      iL + (splitWS query).length by omega]
  rw [ebbLoop_hit text_words query (splitWS query).length
    (iL + (splitWS query).length) iL bs2 bi2 be2 (splitWS query)
    (by rw [show iL + (splitWS query).length - (splitWS query).length = iL by omega]
        exact hocc)
    hnomark hq rfl (h2.trans_lt (by norm_num))]
  rw [show iL + (splitWS query).length - (splitWS query).length = iL by omega]

/-- Counterexample for C2: the corpus tokens
["abcdefghij","abcdefghij","abcdefghiX"] hold verbatim occurrences of
the query "abcdefghij" at start indices 0 and 1, yet the backward scan
breaks on the trailing near-miss window (character similarity 0.9,
which exceeds 0.85) and selects start index 2, which is not an
occurrence at all -- so it does not select the occurrence with the
highest start index. -/
theorem claim_C2_counterexample :
    windowAt ["abcdefghij", "abcdefghij", "abcdefghiX"] 1 0 = ["abcdefghij"] ∧
    windowAt ["abcdefghij", "abcdefghij", "abcdefghiX"] 1 1 = ["abcdefghij"] ∧
    ebbScan ["abcdefghij", "abcdefghij", "abcdefghiX"] "abcdefghij" = (9/10, 2, 3) ∧
    windowAt ["abcdefghij", "abcdefghij", "abcdefghiX"] 1 2 ≠ ["abcdefghij"] :=
  ⟨by decide, by decide, by decide, by decide⟩

/-- Claim C2 (amended): the forward entry point returns the occurrence
with the lowest start index provided no window strictly before it
reaches the 0.95 early-exit threshold; the backward legacy scan selects
the occurrence with the highest start index, breaking once a window
exceeds 0.85 similarity, provided every marker-free window ending after
that occurrence scores at most 0.85 (for a marker-free query that equals
its tokens joined by single spaces). -/
theorem claim_C2_amended :
    (∀ (embedded_text search_string : String) (i0 : ℕ),
        embedded_text ≠ "" → search_string ≠ "" →
        splitWS search_string ≠ [] →
        windowAt (splitWS (clean_embedded_text embedded_text))
            (splitWS search_string).length i0 = splitWS search_string →
        (∀ j, j < i0 →
          sequence_similarity
            (windowAt (splitWS (clean_embedded_text embedded_text))
              (splitWS search_string).length j) (splitWS search_string) < 19/20) →
        find_closest_match embedded_text search_string =
          some ⟨String.intercalate " " (splitWS search_string), 1, i0,
            i0 + (splitWS search_string).length⟩) ∧
    (∀ (text_words : List String) (query : String) (iL : ℕ),
        splitWS query ≠ [] →
        String.intercalate " " (splitWS query) = query →
        (∀ w ∈ splitWS query, isHocrMarkerWord w = false) →
        windowAt text_words (splitWS query).length iL = splitWS query →
        (∀ x, iL + (splitWS query).length < x → x ≤ text_words.length →
          (splitWS query).length ≤
            ((windowAt text_words (splitWS query).length
              (x - (splitWS query).length)).filter
                (fun w => !(isHocrMarkerWord w))).length →
          calculate_string_similarity
            (String.intercalate " "
              ((windowAt text_words (splitWS query).length
                (x - (splitWS query).length)).filter
                  (fun w => !(isHocrMarkerWord w)))) query ≤ 17/20) →
        ebbScan text_words query = (1, iL, iL + (splitWS query).length)) :=
  ⟨fun et ss i0 h1 h2 h3 hocc hpre =>
      find_closest_match_first_occurrence et ss i0 h1 h2 h3 hocc hpre,
   fun tw q iL h3 hq hnomark hocc hafter =>
      ebbScan_last_occurrence tw q iL h3 hq hnomark hocc hafter⟩

/-- Witness for C2 (amended): a corpus with occurrences at indices 1 and
3 where the forward scan returns index 1, and a corpus with occurrences
at indices 0 and 1 where the backward scan selects index 1. -/
theorem claim_C2_witness :
    find_closest_match "x hello world hello world" "hello world" =
      some ⟨String.intercalate " " (splitWS "hello world"), 1, 1,
        1 + (splitWS "hello world").length⟩ ∧
    ebbScan ["a", "a", "b"] "a" = (1, 1, 1 + (splitWS "a").length) :=
  ⟨claim_C2_amended.1 "x hello world hello world" "hello world" 1
      (by decide) (by decide) (by decide) (by decide)
      (by
        intro j hj
        have hj0 : j = 0 := by omega
        subst hj0
        decide),
   claim_C2_amended.2 ["a", "a", "b"] "a" 1 (by decide) (by decide) (by decide)
      (by decide)
      (by
        intro x hx1 hx2
        have hl1 : (splitWS "a").length = 1 := by decide
        have hl2 : (["a", "a", "b"] : List String).length = 3 := by decide
        have hx3 : x = 3 := by omega
        subst hx3
        decide)⟩

/-- Counterexample for C3: a 20-token query whose corpus contains it
verbatim (at start index 20), while the window at index 0 matches 19 of
20 positions; that 0.95 score triggers the early exit, so the returned
similarity is 19/20, not 1. -/
theorem claim_C3_counterexample :
    windowAt (splitWS (clean_embedded_text
        "a b c d e f g h i j k l m n o p q r s z a b c d e f g h i j k l m n o p q r s t"))
        (splitWS "a b c d e f g h i j k l m n o p q r s t").length 20 =
      splitWS "a b c d e f g h i j k l m n o p q r s t" ∧
    find_closest_match
        "a b c d e f g h i j k l m n o p q r s z a b c d e f g h i j k l m n o p q r s t"
        "a b c d e f g h i j k l m n o p q r s t" =
      some ⟨"a b c d e f g h i j k l m n o p q r s z", 19/20, 0, 20⟩ ∧
    ((19 : ℚ)/20 ≠ 1) :=
  ⟨by decide, by decide, by decide⟩

/-- Claim C3 (amended): if the corpus contains the query verbatim at
word boundaries and every window reaching the 0.95 early-exit threshold
is itself an exact occurrence (true in particular for every query of at
most 19 tokens), then `find_closest_match` returns a match with
similarity exactly 1 whose matched tokens equal the query tokens. -/
theorem claim_C3_amended (embedded_text search_string : String)
    (h1 : embedded_text ≠ "") (h2 : search_string ≠ "")
    (h3 : splitWS search_string ≠ [])
    (hocc : ∃ k, windowAt (splitWS (clean_embedded_text embedded_text))
        (splitWS search_string).length k = splitWS search_string)
    (hsharp : ∀ j, 19/20 ≤ sequence_similarity
        (windowAt (splitWS (clean_embedded_text embedded_text))
          (splitWS search_string).length j) (splitWS search_string) →
        windowAt (splitWS (clean_embedded_text embedded_text))
          (splitWS search_string).length j = splitWS search_string) :
    ∃ r, find_closest_match embedded_text search_string = some r ∧
      r.similarity = 1 ∧
      windowAt (splitWS (clean_embedded_text embedded_text))
        (r.end_index - r.start_index) r.start_index = splitWS search_string ∧
      r.text = String.intercalate " " (splitWS search_string) ∧
      r.end_index = r.start_index + (splitWS search_string).length := by
  have hocc0 := Nat.find_spec hocc
  have hpre : ∀ j, j < Nat.find hocc →
      sequence_similarity
        (windowAt (splitWS (clean_embedded_text embedded_text))
          (splitWS search_string).length j) (splitWS search_string) < 19/20 := by
    intro j hj
    by_contra hge
    push_neg at hge
    exact Nat.find_min hocc hj (hsharp j hge)
  refine ⟨⟨String.intercalate " " (splitWS search_string), 1, Nat.find hocc,
    Nat.find hocc + (splitWS search_string).length⟩,
    find_closest_match_first_occurrence embedded_text search_string
      (Nat.find hocc) h1 h2 h3 hocc0 hpre, rfl, ?_, rfl, rfl⟩
  have : Nat.find hocc + (splitWS search_string).length - Nat.find hocc =
      (splitWS search_string).length := by omega
  rw [this]
  exact hocc0

/-- Witness for C3 (amended): Scenario A, where the match has range
[0,2), similarity 1 and matched tokens equal to the query tokens. -/
theorem claim_C3_witness :
    ∃ r, find_closest_match "hello world test" "hello world" = some r ∧
      r.similarity = 1 ∧
      windowAt (splitWS (clean_embedded_text "hello world test"))
        (r.end_index - r.start_index) r.start_index = splitWS "hello world" ∧
      r.text = String.intercalate " " (splitWS "hello world") ∧
      r.end_index = r.start_index + (splitWS "hello world").length :=
  claim_C3_amended "hello world test" "hello world" (by decide) (by decide)
    (by decide) ⟨0, by decide⟩
    (by
      intro j hge
      by_cases hj : j < 3
      · interval_cases j
        · decide
        · exact absurd hge (by decide)
        · exact absurd hge (by decide)
      · exfalso
        have hw : windowAt (splitWS (clean_embedded_text "hello world test"))
            (splitWS "hello world").length j = [] := by
          have hl : (splitWS (clean_embedded_text "hello world test")).length = 3 := by
            decide
          unfold windowAt
          rw [List.drop_eq_nil_of_le (by omega), List.take_nil]
        rw [hw] at hge
        exact absurd hge (by decide))

/-! ## Invariants of the fuzzy stage and of the primary scan results -/

/-- Any match recorded by the inner fuzzy loop has a window length
within the bounds passed to it and a similarity above 0.6. -/
theorem fuzzyInner_inv (cleaned search : List String) (ws : ℕ)
    (hlo : max 1 (search.length - 2) ≤ ws)
    (hhi : ws ≤ min cleaned.length (search.length + 3)) :
    ∀ (c i : ℕ) (best : Option MatchResult) (bs : ℚ),
      i + c ≤ cleaned.length - ws + 1 →
      (∀ r, best = some r →
        max 1 (search.length - 2) ≤ r.end_index - r.start_index ∧
        r.end_index - r.start_index ≤ min cleaned.length (search.length + 3) ∧
        3/5 < r.similarity ∧ r.start_index < r.end_index ∧
        r.end_index ≤ cleaned.length) →
      ∀ r, (fuzzyInner cleaned search ws i c (best, bs)).1 = some r →
        max 1 (search.length - 2) ≤ r.end_index - r.start_index ∧
        r.end_index - r.start_index ≤ min cleaned.length (search.length + 3) ∧
        3/5 < r.similarity ∧ r.start_index < r.end_index ∧
        r.end_index ≤ cleaned.length := by
  intro c
  induction c with
  | zero => intro i best bs _ hacc r hr; exact hacc r hr
  | succ k ih =>
      intro i best bs hb hacc r hr
      simp only [fuzzyInner] at hr
      by_cases hc : bs < fuzzyScore (windowAt cleaned ws i) search ∧
          3/5 < fuzzyScore (windowAt cleaned ws i) search
      · rw [if_pos hc] at hr
        refine ih (i + 1) _ _ (by omega) ?_ r hr
        intro r0 h0
        obtain rfl := (Option.some.inj h0).symm
        have hws1 : 1 ≤ ws := le_trans (le_max_left 1 _) hlo
        have hwsn : ws ≤ cleaned.length := le_trans hhi (min_le_left _ _)
        refine ⟨?_, ?_, hc.2, ?_, ?_⟩
        · simpa using hlo
        · simpa using hhi
        · simp only []; omega
        · simp only []; omega
      · rw [if_neg hc] at hr
        exact ih (i + 1) best bs (by omega) hacc r hr

/-- Any match recorded by the outer fuzzy loop has a window length
within the global bounds and a similarity above 0.6. -/
theorem fuzzyOuter_inv (cleaned search : List String) :
    ∀ (c ws : ℕ) (acc : Option MatchResult × ℚ),
      max 1 (search.length - 2) ≤ ws →
      (∀ j, ws ≤ j → j < ws + c → j ≤ min cleaned.length (search.length + 3)) →
      (∀ r, acc.1 = some r →
        max 1 (search.length - 2) ≤ r.end_index - r.start_index ∧
        r.end_index - r.start_index ≤ min cleaned.length (search.length + 3) ∧
        3/5 < r.similarity ∧ r.start_index < r.end_index ∧
        r.end_index ≤ cleaned.length) →
      ∀ r, (fuzzyOuter cleaned search ws c acc).1 = some r →
        max 1 (search.length - 2) ≤ r.end_index - r.start_index ∧
        r.end_index - r.start_index ≤ min cleaned.length (search.length + 3) ∧
        3/5 < r.similarity ∧ r.start_index < r.end_index ∧
        r.end_index ≤ cleaned.length := by
  intro c
  induction c with
  | zero => intro ws acc _ _ hacc r hr; exact hacc r hr
  | succ k ih =>
      intro ws acc hlo hbound hacc r hr
      simp only [fuzzyOuter] at hr
      obtain ⟨best, bs⟩ := acc
      refine ih (ws + 1) _ (le_trans hlo (by omega))
        (fun j hj1 hj2 => hbound j (by omega) (by omega)) ?_ r hr
      exact fuzzyInner_inv cleaned search ws hlo
        (hbound ws le_rfl (by omega)) (cleaned.length - ws + 1) 0 best bs
        (by omega) (fun r0 h0 => hacc r0 h0)

/-- Any result of `find_fuzzy_match` has a window length between
`max(1, w-2)` and `min(corpus length, w+3)` and similarity above 0.6. -/
theorem find_fuzzy_match_props (cleaned search : List String) (r : MatchResult)
    (h : find_fuzzy_match cleaned search = some r) :
    max 1 (search.length - 2) ≤ r.end_index - r.start_index ∧
    r.end_index - r.start_index ≤ min cleaned.length (search.length + 3) ∧
    3/5 < r.similarity ∧ r.start_index < r.end_index ∧
    r.end_index ≤ cleaned.length := by
  rw [find_fuzzy_match] at h
  exact fuzzyOuter_inv cleaned search
    (min cleaned.length (search.length + 3) + 1 - max 1 (search.length - 2))
    (max 1 (search.length - 2)) (none, 0) le_rfl
    (fun j hj1 hj2 => by omega) (fun r0 h0 => by cases h0) r h

/-- Any match recorded by the primary loop spans exactly the query
length, ends inside the corpus, and has positive similarity. -/
theorem fcmLoop_result (cleaned search : List String) :
    ∀ (c i : ℕ) (best : Option MatchResult) (bs : ℚ),
      i + c ≤ cleaned.length - search.length + 1 →
      search.length ≤ cleaned.length →
      (∀ r, best = some r → r.start_index + search.length = r.end_index ∧
        r.end_index ≤ cleaned.length ∧ 0 < r.similarity) →
      0 ≤ bs →
      ∀ r, (fcmLoop cleaned search i c (best, bs)).1 = some r →
        r.start_index + search.length = r.end_index ∧
        r.end_index ≤ cleaned.length ∧ 0 < r.similarity := by
  intro c
  induction c with
  | zero => intro i best bs _ _ hacc _ r hr; exact hacc r hr
  | succ k ih =>
      intro i best bs hb hwn hacc hbs r hr
      simp only [fcmLoop] at hr
      by_cases hc : bs < sequence_similarity (windowAt cleaned search.length i) search
      · rw [if_pos hc] at hr
        by_cases hc2 : 19/20 ≤ sequence_similarity (windowAt cleaned search.length i) search
        · rw [if_pos hc2] at hr
          obtain rfl := (Option.some.inj hr).symm
          exact ⟨rfl, by simp only []; omega, lt_of_le_of_lt hbs hc⟩
        · rw [if_neg hc2] at hr
          refine ih (i + 1) _ _ (by omega) hwn ?_
            (le_of_lt (lt_of_le_of_lt hbs hc)) r hr
          intro r0 h0
          obtain rfl := (Option.some.inj h0).symm
          exact ⟨rfl, by simp only []; omega, lt_of_le_of_lt hbs hc⟩
      · rw [if_neg hc] at hr
        exact ih (i + 1) best bs (by omega) hwn hacc hbs r hr

/-- Claim C6: the fuzzy stage can affect the result only when the
primary best score is below 0.8 (first conjunct: at or above 0.8 the
primary result is returned untouched); any fuzzy candidate has a window
length between `max(1, w-2)` and `min(corpus length, w+3)` inclusive and
a score strictly above 0.6 (second conjunct); and a fuzzy candidate that
is not strictly above the primary best is discarded (third conjunct). -/
theorem claim_C6 :
    (∀ (embedded_text search_string : String),
        embedded_text ≠ "" → search_string ≠ "" →
        splitWS search_string ≠ [] →
        splitWS (clean_embedded_text embedded_text) ≠ [] →
        ¬((splitWS (clean_embedded_text embedded_text)).length <
          (splitWS search_string).length) →
        ¬((fcmPrimary (splitWS (clean_embedded_text embedded_text))
            (splitWS search_string)).2 < 4/5) →
        find_closest_match embedded_text search_string =
          (fcmPrimary (splitWS (clean_embedded_text embedded_text))
            (splitWS search_string)).1) ∧
    (∀ (cleaned search : List String) (r : MatchResult),
        find_fuzzy_match cleaned search = some r →
        max 1 (search.length - 2) ≤ r.end_index - r.start_index ∧
        r.end_index - r.start_index ≤ min cleaned.length (search.length + 3) ∧
        3/5 < r.similarity) ∧
    (∀ (embedded_text search_string : String) (f : MatchResult),
        embedded_text ≠ "" → search_string ≠ "" →
        splitWS search_string ≠ [] →
        splitWS (clean_embedded_text embedded_text) ≠ [] →
        ¬((splitWS (clean_embedded_text embedded_text)).length <
          (splitWS search_string).length) →
        (fcmPrimary (splitWS (clean_embedded_text embedded_text))
          (splitWS search_string)).2 < 4/5 →
        find_fuzzy_match (splitWS (clean_embedded_text embedded_text))
          (splitWS search_string) = some f →
        ¬((fcmPrimary (splitWS (clean_embedded_text embedded_text))
            (splitWS search_string)).2 < f.similarity) →
        find_closest_match embedded_text search_string =
          (fcmPrimary (splitWS (clean_embedded_text embedded_text))
            (splitWS search_string)).1) := by
  refine ⟨?_, ?_, ?_⟩
  · intro et ss h1 h2 h3 h4 h5 h6
    rw [find_closest_match_unfold et ss (by rintro (h | h) <;> [exact h1 h; exact h2 h])
      (by rintro (h | h) <;> [exact h3 h; exact h4 h]) h5]
    simp only [if_neg h6]
  · intro cleaned search r h
    obtain ⟨ha, hb, hc, _, _⟩ := find_fuzzy_match_props cleaned search r h
    exact ⟨ha, hb, hc⟩
  · intro et ss f h1 h2 h3 h4 h5 h6 hfm h8
    rw [find_closest_match_unfold et ss (by rintro (h | h) <;> [exact h1 h; exact h2 h])
      (by rintro (h | h) <;> [exact h3 h; exact h4 h]) h5]
    simp only [if_pos h6, hfm, if_neg h8]

/-- Witness for C6: the three conjuncts applied to concrete inputs --
a primary perfect match (no fuzzy stage), a fuzzy result of window
length 1 and score 0.8, and a corpus where the fuzzy candidate ties the
primary best (0.7) and is discarded. -/
theorem claim_C6_witness :
    find_closest_match "a" "a" =
      (fcmPrimary (splitWS (clean_embedded_text "a")) (splitWS "a")).1 ∧
    (max 1 ((["hallo"] : List String).length - 2) ≤
        (⟨"hello", 4/5, 0, 1⟩ : MatchResult).end_index -
          (⟨"hello", 4/5, 0, 1⟩ : MatchResult).start_index ∧
      (⟨"hello", 4/5, 0, 1⟩ : MatchResult).end_index -
          (⟨"hello", 4/5, 0, 1⟩ : MatchResult).start_index ≤
        min (["hello"] : List String).length ((["hallo"] : List String).length + 3) ∧
      3/5 < (⟨"hello", 4/5, 0, 1⟩ : MatchResult).similarity) ∧
    find_closest_match "aa bb cc dd ee ff gg q r s" "aa bb cc dd ee ff gg hh ii jj" =
      (fcmPrimary (splitWS (clean_embedded_text "aa bb cc dd ee ff gg q r s"))
        (splitWS "aa bb cc dd ee ff gg hh ii jj")).1 :=
  ⟨claim_C6.1 "a" "a" (by decide) (by decide) (by decide) (by decide)
      (by decide) (by decide),
   claim_C6.2.1 ["hello"] ["hallo"] ⟨"hello", 4/5, 0, 1⟩ (by decide),
   claim_C6.2.2 "aa bb cc dd ee ff gg q r s" "aa bb cc dd ee ff gg hh ii jj"
      ⟨"aa bb cc dd ee ff gg q", 7/10, 0, 8⟩ (by decide) (by decide) (by decide)
      (by decide) (by decide) (by decide) (by decide) (by decide)⟩

/-- The guard cases of `find_closest_match` (shared helper). -/
theorem fcm_guard_none (embedded_text search_string : String)
    (h : search_string = "" ∨ embedded_text = "" ∨
      splitWS search_string = [] ∨
      splitWS (clean_embedded_text embedded_text) = [] ∨
      (splitWS (clean_embedded_text embedded_text)).length <
        (splitWS search_string).length) :
    find_closest_match embedded_text search_string = none := by
  unfold find_closest_match
  by_cases he : embedded_text = "" ∨ search_string = ""
  · simp [he]
  · push_neg at he
    rcases h with h | h | h | h | h
    · exact absurd h he.2
    · exact absurd h he.1
    · simp [he.1, he.2, h]
    · simp [he.1, he.2, h]
    · by_cases hg : splitWS search_string = [] ∨
          splitWS (clean_embedded_text embedded_text) = []
      · simp [he.1, he.2, hg]
      · push_neg at hg
        simp [he.1, he.2, hg.1, hg.2, h]

/-- Claim C10: whenever `find_closest_match` returns a result, its
range satisfies `0 ≤ start < end ≤ corpus length`, the window length
lies between `max(1, w-2)` and `min(corpus length, w+3)`, and the
similarity is strictly positive (an all-zero scan with no accepted fuzzy
candidate yields no match, never a zero-similarity result). -/
theorem claim_C10 (embedded_text search_string : String) (r : MatchResult)
    (h : find_closest_match embedded_text search_string = some r) :
    r.start_index < r.end_index ∧
    r.end_index ≤ (splitWS (clean_embedded_text embedded_text)).length ∧
    max 1 ((splitWS search_string).length - 2) ≤ r.end_index - r.start_index ∧
    r.end_index - r.start_index ≤
      min (splitWS (clean_embedded_text embedded_text)).length
        ((splitWS search_string).length + 3) ∧
    0 < r.similarity := by
  by_cases g1 : search_string = "" ∨ embedded_text = "" ∨
      splitWS search_string = [] ∨
      splitWS (clean_embedded_text embedded_text) = [] ∨
      (splitWS (clean_embedded_text embedded_text)).length <
        (splitWS search_string).length
  · rw [fcm_guard_none _ _ g1] at h
    cases h
  · push_neg at g1
    obtain ⟨g2, g3, hqw, g4, g5⟩ := g1
    have hw1 : 1 ≤ (splitWS search_string).length := List.length_pos.mpr hqw
    rw [find_closest_match_unfold _ _ (by rintro (hh | hh) <;> [exact g3 hh; exact g2 hh])
      (by rintro (hh | hh) <;> [exact hqw hh; exact g4 hh]) (by omega)] at h
    have hprim : ∀ r0,
        (fcmPrimary (splitWS (clean_embedded_text embedded_text))
          (splitWS search_string)).1 = some r0 →
        r0.start_index + (splitWS search_string).length = r0.end_index ∧
        r0.end_index ≤ (splitWS (clean_embedded_text embedded_text)).length ∧
        0 < r0.similarity := by
      intro r0 h0
      rw [fcmPrimary] at h0
      exact fcmLoop_result _ _ _ 0 none 0 (by omega) (by omega)
        (fun r1 h1 => by cases h1) le_rfl r0 h0
    simp only [] at h
    by_cases g6 : (fcmPrimary (splitWS (clean_embedded_text embedded_text))
        (splitWS search_string)).2 < 4/5
    · rw [if_pos g6] at h
      cases hfm : find_fuzzy_match (splitWS (clean_embedded_text embedded_text))
          (splitWS search_string) with
      | none =>
          rw [hfm] at h
          obtain ⟨ha, hb, hc⟩ := hprim r h
          refine ⟨by omega, hb, by omega, by omega, hc⟩
      | some f =>
          rw [hfm] at h
          simp only [] at h
          by_cases g7 : (fcmPrimary (splitWS (clean_embedded_text embedded_text))
              (splitWS search_string)).2 < f.similarity
          · rw [if_pos g7] at h
            obtain rfl := (Option.some.inj h).symm
            obtain ⟨ha, hb, hc, hd, he⟩ := find_fuzzy_match_props _ _ r hfm
            exact ⟨hd, he, ha, hb, lt_trans (by norm_num) hc⟩
          · rw [if_neg g7] at h
            obtain ⟨ha, hb, hc⟩ := hprim r h
            refine ⟨by omega, hb, by omega, by omega, hc⟩
    · rw [if_neg g6] at h
      obtain ⟨ha, hb, hc⟩ := hprim r h
      refine ⟨by omega, hb, by omega, by omega, hc⟩

/-- Witness for C10: the invariants at Scenario A's result. -/
theorem claim_C10_witness :
    find_closest_match "hello world test" "hello world" =
      some ⟨"hello world", 1, 0, 2⟩ ∧
    ((⟨"hello world", 1, 0, 2⟩ : MatchResult).start_index <
        (⟨"hello world", 1, 0, 2⟩ : MatchResult).end_index ∧
      (⟨"hello world", 1, 0, 2⟩ : MatchResult).end_index ≤
        (splitWS (clean_embedded_text "hello world test")).length ∧
      max 1 ((splitWS "hello world").length - 2) ≤
        (⟨"hello world", 1, 0, 2⟩ : MatchResult).end_index -
          (⟨"hello world", 1, 0, 2⟩ : MatchResult).start_index ∧
      (⟨"hello world", 1, 0, 2⟩ : MatchResult).end_index -
          (⟨"hello world", 1, 0, 2⟩ : MatchResult).start_index ≤
        min (splitWS (clean_embedded_text "hello world test")).length
          ((splitWS "hello world").length + 3) ∧
      0 < (⟨"hello world", 1, 0, 2⟩ : MatchResult).similarity) :=
  ⟨by decide,
   claim_C10 "hello world test" "hello world" ⟨"hello world", 1, 0, 2⟩ (by decide)⟩

/-! ## The legacy bounding-box combination -/

set_option maxRecDepth 4000

/-- The running-maximum/overwrite fold of `extract_bounding_box`
decomposes into a seeded maximum for the right edge and the last
element's value for the bottom edge. -/
theorem foldl_box (l : List (ℕ × ℕ × ℕ × ℕ)) :
    ∀ (a y0 : ℚ),
      l.foldl (fun (acc : ℚ × ℚ) m =>
        (if acc.1 < (m.2.2.1 : ℚ) then (m.2.2.1 : ℚ) else acc.1, (m.2.2.2 : ℚ))) (a, y0) =
      ((l.map (fun m => (m.2.2.1 : ℚ))).foldl max a,
        match l.getLast? with
        | some m => (m.2.2.2 : ℚ)
        | none => y0) := by
  induction l with
  | nil => intro a y0; simp
  | cons hd t ih =>
      intro a y0
      simp only [List.foldl_cons, List.map_cons]
      rw [ih]
      have hmax : (if a < (hd.2.2.1 : ℚ) then (hd.2.2.1 : ℚ) else a) =
          max a (hd.2.2.1 : ℚ) := by
        rcases lt_or_le a (hd.2.2.1 : ℚ) with hc | hc
        · rw [if_pos hc, max_eq_right hc.le]
        · rw [if_neg (not_lt.mpr hc), max_eq_left hc]
      rw [hmax]
      congr 1
      cases t with
      | nil => simp
      | cons b t2 =>
          rw [List.getLast?_cons_cons]
          obtain ⟨m, hm⟩ : ∃ m, (b :: t2).getLast? = some m :=
            ⟨(b :: t2).getLast (by simp), List.getLast?_eq_getLast _ _⟩
          rw [hm]

/-- Claim C9 (amended): in the legacy path, `x1` and `y1` come from the
last LINE marker before the matched span; `x2` is the maximum of that
marker's `x1` and the `x2` values of the markers within the span (the
running maximum is seeded with the start `x1`, so it is not always the
in-span maximum); `y2` is the `y2` of the last in-span marker (0 when
the span holds none); and the all-zero combination -- in particular when
no markers are found at all -- yields an absent result, never a valid
(0,0)-(0,0) rectangle. -/
theorem claim_C9_amended (embedded_text query : String)
    (h1 : embedded_text ≠ "") (h2 : query ≠ "") (h3 : splitWS query ≠ []) :
    extract_bounding_box embedded_text query =
      (let startM := (scanMarkers (ebbBefore embedded_text query)).getLast?
       let a : ℚ := match startM with | some m => (m.1 : ℚ) | none => 0
       let b : ℚ := match startM with | some m => (m.2.1 : ℚ) | none => 0
       let mm := scanMarkers (ebbMatchSection embedded_text query)
       let x2max : ℚ := (mm.map (fun m => (m.2.2.1 : ℚ))).foldl max a
       let ylast : ℚ := match mm.getLast? with | some m => (m.2.2.2 : ℚ) | none => 0
       if a = 0 ∧ b = 0 ∧ x2max = 0 ∧ ylast = 0 then none
       else some ⟨a, b, x2max, ylast⟩) := by
  rw [extract_bounding_box, if_neg (by rintro (h | h) <;> [exact h1 h; exact h2 h]),
    if_neg h3]
  simp only [foldl_box]

/-- Counterexample for C9: with the last before-span marker at
(500,600,700,800) and a single in-span marker (100,200,300,400), the
code returns x2 = 500 (the seeded start x1), while the maximum x2 over
the in-span markers is 300. -/
theorem claim_C9_counterexample :
    extract_bounding_box "[[LINE 500 600 700 800]] [[LINE 100 200 300 400]] hello"
        "[[LINE 100 200 300 400]] hello" = some ⟨500, 600, 500, 400⟩ ∧
    scanMarkers (ebbMatchSection "[[LINE 500 600 700 800]] [[LINE 100 200 300 400]] hello"
        "[[LINE 100 200 300 400]] hello") = [(100, 200, 300, 400)] ∧
    ((500 : ℚ) ≠ 300) :=
  ⟨by decide, by decide, by decide⟩

/-- Witness for C9 (amended): the combination rule applied to a corpus
with one marker before the match and none inside it. -/
theorem claim_C9_witness :
    extract_bounding_box "[[LINE 1 2 3 4]] a" "a" =
      (let startM := (scanMarkers (ebbBefore "[[LINE 1 2 3 4]] a" "a")).getLast?
       let a : ℚ := match startM with | some m => (m.1 : ℚ) | none => 0
       let b : ℚ := match startM with | some m => (m.2.1 : ℚ) | none => 0
       let mm := scanMarkers (ebbMatchSection "[[LINE 1 2 3 4]] a" "a")
       let x2max : ℚ := (mm.map (fun m => (m.2.2.1 : ℚ))).foldl max a
       let ylast : ℚ := match mm.getLast? with | some m => (m.2.2.2 : ℚ) | none => 0
       if a = 0 ∧ b = 0 ∧ x2max = 0 ∧ ylast = 0 then none
       else some ⟨a, b, x2max, ylast⟩) :=
  claim_C9_amended "[[LINE 1 2 3 4]] a" "a" (by decide) (by decide) (by decide)
